import Mathlib

/-!
Shallow embedding of the vector-storage and similarity-scoring subsystem of
the qdrant segment core (lib/segment, lib/sparse).

Floating-point `f32` values (`ScoreType`, vector elements, sparse weights)
are idealized as rationals extended with the two infinities; NaN and the
signed-zero distinction are outside the model.  All claims under scrutiny
concern ordering, branching and structural behaviour, which this
idealization represents faithfully.
-/

namespace Qdrant

/-- Idealization of the Rust `ScoreType = f32`: negative infinity, a finite
rational, or positive infinity (NaN excluded). -/
inductive ScoreType where
  | negInf : ScoreType
  | fin : ℚ → ScoreType
  | posInf : ScoreType
deriving DecidableEq

namespace ScoreType

/-- Strict order on scores: agrees with both `f32::total_cmp` and the partial
order used by the `>` comparison, on non-NaN values. -/
def slt : ScoreType → ScoreType → Bool
  | negInf, negInf => false
  | negInf, _ => true
  | fin _, negInf => false
  | fin a, fin b => decide (a < b)
  | fin _, posInf => true
  | posInf, _ => false

/-- Non-strict companion of `slt`. -/
def sle (a b : ScoreType) : Bool := !(slt b a)

/-- Binary step of Rust `Iterator::max_by`: keep the accumulator `a` only
when it is strictly greater than the next element `b` (ties keep the later
element, as `max_by` documents). -/
def smax (a b : ScoreType) : ScoreType := if slt b a then a else b

/-- The value of `m * m` in `f32` arithmetic at these values. -/
def square : ScoreType → ScoreType
  | negInf => posInf
  | fin q => fin (q * q)
  | posInf => posInf

/-- `f32` negation. -/
def sneg : ScoreType → ScoreType
  | negInf => posInf
  | fin q => fin (-q)
  | posInf => negInf

/-- Rust `Iterator::max_by` with `total_cmp`: `none` on an empty iterator,
otherwise a fold of `smax` over the elements. -/
def max_by : List ScoreType → Option ScoreType
  | [] => none
  | x :: xs => some (xs.foldl smax x)

theorem sle_refl (a : ScoreType) : sle a a = true := by
  cases a <;> simp [sle, slt]

theorem slt_asymm {a b : ScoreType} (h : slt a b = true) : slt b a = false := by
  cases a <;> cases b <;> simp_all [slt] <;> linarith

theorem sle_trans {a b c : ScoreType} (h1 : sle a b = true) (h2 : sle b c = true) :
    sle a c = true := by
  cases a <;> cases b <;> cases c <;> simp_all [sle, slt] <;> linarith

theorem sle_smax_left (a b : ScoreType) : sle a (smax a b) = true := by
  unfold smax
  by_cases h : slt b a = true
  · simp [h, sle_refl]
  · simp only [Bool.not_eq_true] at h
    simp [h, sle]

theorem sle_smax_right (a b : ScoreType) : sle b (smax a b) = true := by
  unfold smax
  by_cases h : slt b a = true
  · simp [h, sle, slt_asymm h]
  · simp [h, sle_refl]

theorem smax_cases (a b : ScoreType) : smax a b = a ∨ smax a b = b := by
  unfold smax
  by_cases h : slt b a = true <;> simp [h]

theorem foldl_smax_mem (xs : List ScoreType) (a : ScoreType) :
    xs.foldl smax a = a ∨ xs.foldl smax a ∈ xs := by
  induction xs generalizing a with
  | nil => left; rfl
  | cons x xs ih =>
    simp only [List.foldl_cons, List.mem_cons]
    rcases ih (smax a x) with h | h
    · rcases smax_cases a x with hc | hc
      · left; rw [h, hc]
      · right; left; rw [h, hc]
    · right; right; exact h

theorem sle_foldl_smax_init (xs : List ScoreType) (a : ScoreType) :
    sle a (xs.foldl smax a) = true := by
  induction xs generalizing a with
  | nil => exact sle_refl a
  | cons x xs ih =>
    simp only [List.foldl_cons]
    exact sle_trans (sle_smax_left a x) (ih (smax a x))

theorem sle_foldl_smax_mem (xs : List ScoreType) (y : ScoreType) :
    ∀ a, y ∈ xs → sle y (xs.foldl smax a) = true := by
  induction xs with
  | nil => intro a h; cases h
  | cons x xs ih =>
    intro a h
    simp only [List.foldl_cons]
    rcases List.mem_cons.mp h with rfl | h2
    · exact sle_trans (sle_smax_right a y) (sle_foldl_smax_init xs (smax a y))
    · exact ih (smax a x) h2

end ScoreType

/-- The positive/negative exemplar sets of a recommendation query
(`RecoQuery<T>` in `reco_query.rs`). -/
structure RecoQuery (T : Type) where
  positives : List T
  negatives : List T
deriving DecidableEq

/-- `merge_similarities` from `reco_query.rs`: take the maximum similarity to
positives and to negatives (each defaulting to negative infinity when the
side is empty); return the positive maximum when strictly greater, otherwise
the negation of the square of the negative maximum. -/
def merge_similarities (positives negatives : List ScoreType) : ScoreType :=
  let max_positive := (ScoreType.max_by positives).getD ScoreType.negInf
  let max_negative := (ScoreType.max_by negatives).getD ScoreType.negInf
  if ScoreType.slt max_negative max_positive then max_positive
  else ScoreType.sneg (ScoreType.square max_negative)

/-- `RecoQuery::score_by`: map the similarity function over both sides and
fold with `merge_similarities`. -/
def RecoQuery.score_by {T : Type} (q : RecoQuery T) (similarity : T → ScoreType) :
    ScoreType :=
  merge_similarities (q.positives.map similarity) (q.negatives.map similarity)

/-- Specification-side description of "the maximum of the list, defaulting to
negative infinity when the list is empty": either the list is empty and the
value is negative infinity, or the value is an element of the list bounding
every element from above. -/
def IsMaxOrNegInf (l : List ScoreType) (m : ScoreType) : Prop :=
  (l = [] ∧ m = ScoreType.negInf) ∨
    (m ∈ l ∧ ∀ x ∈ l, ScoreType.sle x m = true)

theorem isMaxOrNegInf_max_by (l : List ScoreType) :
    IsMaxOrNegInf l ((ScoreType.max_by l).getD ScoreType.negInf) := by
  cases l with
  | nil => left; exact ⟨rfl, rfl⟩
  | cons x xs =>
    right
    constructor
    · simp only [ScoreType.max_by, Option.getD_some]
      rcases ScoreType.foldl_smax_mem xs x with h | h
      · rw [h]; exact List.mem_cons_self x xs
      · exact List.mem_cons_of_mem x h
    · intro y hy
      simp only [ScoreType.max_by, Option.getD_some]
      rcases List.mem_cons.mp hy with rfl | h
      · exact ScoreType.sle_foldl_smax_init xs y
      · exact ScoreType.sle_foldl_smax_mem xs y x h

/-- Vector element type: `f32` idealized as a rational. -/
abbrev VectorElementType := ℚ

/-- `VectorType = Vec<VectorElementType>`. -/
abbrev VectorType := List VectorElementType

/-- Sparse dimension id (`DimId = u32`). -/
abbrev DimId := ℕ

/-- Sparse dimension weight (`DimWeight = f32`, idealized). -/
abbrev DimWeight := ℚ

/-- `SparseVector` from `lib/sparse`: parallel index/weight sequences. -/
structure SparseVector where
  indices : List DimId
  weights : List DimWeight
deriving DecidableEq

/-- Owned vector union (`VectorOrSparse`). -/
inductive VectorOrSparse where
  | Vector (v : VectorType)
  | Sparse (s : SparseVector)
deriving DecidableEq

/-- Borrowed vector union (`VectorOrSparseRef`); borrowing is identity in
this embedding, but the type is kept separate to mirror the source. -/
inductive VectorOrSparseRef where
  | Vector (v : VectorType)
  | Sparse (s : SparseVector)
deriving DecidableEq

/-- `VectorOrSparseRef::to_owned`. -/
def VectorOrSparseRef.to_owned : VectorOrSparseRef → VectorOrSparse
  | .Vector v => .Vector v
  | .Sparse s => .Sparse s

/-- `VectorOrSparseRef::len`: element count for dense, index count for sparse. -/
def VectorOrSparseRef.len : VectorOrSparseRef → ℕ
  | .Vector v => v.length
  | .Sparse s => s.indices.length

/-- The `Into<VectorOrSparseRef>` impl for `&VectorOrSparse`. -/
def VectorOrSparse.ref : VectorOrSparse → VectorOrSparseRef
  | .Vector v => .Vector v
  | .Sparse s => .Sparse s

/-- `From<VectorType> for VectorOrSparse`. -/
def VectorOrSparse.from_vector (v : VectorType) : VectorOrSparse := .Vector v

/-- `From<SparseVector> for VectorOrSparse`. -/
def VectorOrSparse.from_sparse (s : SparseVector) : VectorOrSparse := .Sparse s

/-- The error kinds of `OperationError` reachable from this excerpt. -/
inductive OperationError where
  | WrongSparse
  | VectorNameNotExists (received_name : String)
  | WrongVector (expected_dim : ℕ) (received_dim : ℕ)
  | Cancelled (description : String)
deriving DecidableEq

/-- `TryInto<VectorType> for VectorOrSparse`. -/
def VectorOrSparse.try_into_vector : VectorOrSparse → Except OperationError VectorType
  | .Vector v => .ok v
  | .Sparse _ => .error .WrongSparse

/-- `TryInto<SparseVector> for VectorOrSparse`. -/
def VectorOrSparse.try_into_sparse : VectorOrSparse → Except OperationError SparseVector
  | .Vector _ => .error .WrongSparse
  | .Sparse s => .ok s

/-- `TryInto<&[VectorElementType]> for VectorOrSparseRef`. -/
def VectorOrSparseRef.try_into_slice : VectorOrSparseRef → Except OperationError VectorType
  | .Vector v => .ok v
  | .Sparse _ => .error .WrongSparse

/-- `TryInto<&SparseVector> for VectorOrSparseRef`. -/
def VectorOrSparseRef.try_into_sparse : VectorOrSparseRef → Except OperationError SparseVector
  | .Vector _ => .error .WrongSparse
  | .Sparse s => .ok s

/-- `QueryVector`: a single nearest target or a recommendation query. -/
inductive QueryVector where
  | Nearest (v : VectorOrSparse)
  | Recommend (q : RecoQuery VectorOrSparse)
deriving DecidableEq

/-- `RecoQuery::iter_all`: positives chained with negatives, in order. -/
def RecoQuery.iter_all {T : Type} (q : RecoQuery T) : List T :=
  q.positives ++ q.negatives

/-- The element step of the `TryFrom<RecoQuery<VectorOrSparse>>` impl:
collect dense payloads, short-circuiting with `WrongSparse` at the first
sparse element (Rust `collect::<Result<Vec<_>, _>>`). -/
def collect_dense : List VectorOrSparse → Except OperationError (List VectorType)
  | [] => .ok []
  | .Vector v :: rest => do
      let r ← collect_dense rest
      pure (v :: r)
  | .Sparse _ :: _ => .error .WrongSparse

/-- `TryFrom<RecoQuery<VectorOrSparse>> for RecoQuery<VectorType>`. -/
def RecoQuery.try_from_union (q : RecoQuery VectorOrSparse) :
    Except OperationError (RecoQuery VectorType) := do
  let positives ← collect_dense q.positives
  let negatives ← collect_dense q.negatives
  pure ⟨positives, negatives⟩

/-- Per-field vector config (`VectorDataConfig`); only the declared
dimensionality is consulted by the validation path. -/
structure VectorDataConfig where
  size : ℕ
deriving DecidableEq

/-- Segment config (`SegmentConfig`); the `vector_data` hash map is modelled
as an association list. -/
structure SegmentConfig where
  vector_data : List (String × VectorDataConfig)
deriving DecidableEq

/-- `get_vector_config_or_error` from `common/mod.rs`. -/
def get_vector_config_or_error (vector_name : String) (segment_config : SegmentConfig) :
    Except OperationError VectorDataConfig :=
  match segment_config.vector_data.lookup vector_name with
  | some c => .ok c
  | none => .error (.VectorNameNotExists vector_name)

/-- `check_vector_against_config` from `common/mod.rs`. -/
def check_vector_against_config (vector : VectorOrSparseRef)
    (vector_config : VectorDataConfig) : Except OperationError Unit :=
  let dim := vector_config.size
  if vector.len ≠ dim then .error (.WrongVector dim vector.len) else .ok ()

/-- Rust `Iterator::try_for_each`: run the action on each element in order,
stopping at the first error. -/
def try_for_each {α : Type} : List α → (α → Except OperationError Unit) →
    Except OperationError Unit
  | [], _ => .ok ()
  | x :: rest, f => do
      f x
      try_for_each rest f

/-- The private `_check_query_vector` from `common/mod.rs`. -/
def check_query_vector_inner (query_vector : QueryVector)
    (vector_config : VectorDataConfig) : Except OperationError Unit :=
  match query_vector with
  | .Nearest vector => check_vector_against_config vector.ref vector_config
  | .Recommend reco_query =>
      try_for_each reco_query.iter_all
        (fun vector => check_vector_against_config vector.ref vector_config)

/-- `check_vector` from `common/mod.rs`. -/
def check_vector (vector_name : String) (query_vector : QueryVector)
    (segment_config : SegmentConfig) : Except OperationError Unit := do
  let vector_config ← get_vector_config_or_error vector_name segment_config
  check_query_vector_inner query_vector vector_config

/-- `check_stopped` from `common/mod.rs`; the `AtomicBool` is modelled as the
boolean value it holds at the moment of the (relaxed) load. -/
def check_stopped (is_stopped : Bool) : Except OperationError Unit :=
  if is_stopped then .error (.Cancelled "Operation is stopped externally")
  else .ok ()

/-- Modelled from the spec: the concrete backends' `update_from`
implementations (Simple / Memmap / AppendableMemmap vector storages) are not
part of this source excerpt, and the test fixture leaves the method
unimplemented.  The spec requires `update_from` to bulk-copy the vectors
named by the id iterator and to "check the stop flag periodically and abort
with a `Cancelled` error when set".  We model the copy loop as polling
`check_stopped` before each copied id and returning the number of copied
entries. -/
def update_from_modelled (stopped : Bool) : List ℕ → Except OperationError ℕ
  | [] => .ok 0
  | _ :: rest => do
      check_stopped stopped
      let n ← update_from_modelled stopped rest
      pure (n + 1)

/-- State of the `TestRawScorerProducer` fixture storage: chunked vectors and
the two deletion bitmaps (`BitVec` modelled as a list of booleans). -/
structure TestRawScorerProducer where
  vectors : List VectorType
  deleted_points : List Bool
  deleted_vectors : List Bool
deriving DecidableEq

/-- `VectorStorage::total_vector_count` for the fixture: `self.vectors.len()`. -/
def TestRawScorerProducer.total_vector_count (s : TestRawScorerProducer) : ℕ :=
  s.vectors.length

/-- `VectorStorage::deleted_vector_count` for the fixture:
`self.deleted_vectors.count_ones()`. -/
def TestRawScorerProducer.deleted_vector_count (s : TestRawScorerProducer) : ℕ :=
  s.deleted_vectors.count true

/-- The trait's provided `available_vector_count`:
`total_vector_count().saturating_sub(deleted_vector_count())`.  Nat
subtraction saturates at zero exactly like `usize::saturating_sub`. -/
def TestRawScorerProducer.available_vector_count (s : TestRawScorerProducer) : ℕ :=
  s.total_vector_count - s.deleted_vector_count

/-- `is_deleted_vector` for the fixture: `self.deleted_vectors[key as usize]`.
`BitVec` indexing panics when `key` is at or beyond the bitmap length; the
panic is modelled as `none`. -/
def TestRawScorerProducer.is_deleted_vector (s : TestRawScorerProducer) (key : ℕ) :
    Option Bool :=
  s.deleted_vectors.get? key

/-- `delete_vector` for the fixture:
`Ok(!self.deleted_vectors.replace(key as usize, true))`.  `BitVec::replace`
panics when `key` is out of bounds (modelled as `none`); in range it sets the
bit and returns the previous value, so the method returns `Ok(!old)` together
with the updated state. -/
def TestRawScorerProducer.delete_vector (s : TestRawScorerProducer) (key : ℕ) :
    Option (Bool × TestRawScorerProducer) :=
  match s.deleted_vectors.get? key with
  | none => none
  | some old =>
      some (!old, { s with deleted_vectors := s.deleted_vectors.set key true })

/-- `VectorStruct` from `data_types/vectors.rs`; the hash maps are modelled
as association lists. -/
inductive VectorStruct where
  | Single (v : VectorType)
  | Multi (m : List (String × VectorType))
  | Sparse (s : SparseVector)
  | MultiSparse (m : List (String × SparseVector))
deriving DecidableEq

/-- `VectorStruct::is_empty`. -/
def VectorStruct.is_empty : VectorStruct → Bool
  | .Single vector => vector.isEmpty
  | .Multi vectors => vectors.all (fun kv => kv.2.isEmpty)
  | .Sparse vector => vector.indices.isEmpty
  | .MultiSparse vectors => vectors.all (fun kv => kv.2.indices.isEmpty)

/-- Specification-side view for `is_empty`: the sizes (element count for
dense, index count for sparse) of every vector contained in the struct. -/
def VectorStruct.containedLens : VectorStruct → List ℕ
  | .Single vector => [vector.length]
  | .Multi vectors => vectors.map (fun kv => kv.2.length)
  | .Sparse vector => [vector.indices.length]
  | .MultiSparse vectors => vectors.map (fun kv => kv.2.indices.length)

theorem slt_irrefl (a : ScoreType) : ScoreType.slt a a = false := by
  cases a <;> simp [ScoreType.slt]

theorem merge_similarities_no_negatives (positives : List ScoreType)
    (hpos : positives ≠ []) :
    merge_similarities positives [] =
      (ScoreType.max_by positives).getD ScoreType.negInf := by
  cases positives with
  | nil => exact absurd rfl hpos
  | cons x xs =>
    simp only [merge_similarities, ScoreType.max_by, Option.getD_some, Option.getD_none]
    cases h : xs.foldl ScoreType.smax x <;>
      simp [ScoreType.slt, ScoreType.sneg, ScoreType.square, h]

/-- Sanity: the literal scoring scenarios from the source test module
(`reco_query.rs`, `score_query`). -/
theorem merge_similarities_literal_cases :
    merge_similarities [.fin 42] [.fin 4] = .fin 42 ∧
    merge_similarities [.fin 4] [.fin 42] = .fin (-1764) ∧
    merge_similarities [.fin (-1)] [.fin 0] = .fin 0 ∧
    merge_similarities [.fin 0] [.fin (-1)] = .fin 0 ∧
    merge_similarities [.fin (-42)] [.fin (-84)] = .fin (-42) ∧
    merge_similarities [.fin (-84)] [.fin (-42)] = .fin (-1764) ∧
    merge_similarities [.fin 1, .fin 2, .fin 3] [.fin 4, .fin 5, .fin 6] = .fin (-36) ∧
    merge_similarities [.fin 10, .fin 2, .fin 3] [.fin 4, .fin 5, .fin 6] = .fin 10 ∧
    merge_similarities [] [] = .negInf := by
  norm_num [merge_similarities, ScoreType.max_by, ScoreType.smax, ScoreType.slt,
    ScoreType.square, ScoreType.sneg]

/-- C1: for every recommendation query and similarity function,
`RecoQuery::score_by` computes the maximum similarity over positives and
over negatives (each maximum defaulting to negative infinity when its list
is empty), returns the positive maximum exactly when it is strictly greater
than the negative maximum, and otherwise returns the negation of the square
of the negative maximum; when both lists are empty the result is negative
infinity, and a tie between the maxima takes the negative branch. -/
theorem score_by_merges_maxima (T : Type) (q : RecoQuery T)
    (similarity : T → ScoreType) :
    ∃ mp mn : ScoreType,
      IsMaxOrNegInf (q.positives.map similarity) mp ∧
      IsMaxOrNegInf (q.negatives.map similarity) mn ∧
      q.score_by similarity =
        (if ScoreType.slt mn mp then mp else ScoreType.sneg (ScoreType.square mn)) ∧
      (q.positives = [] → q.negatives = [] →
        q.score_by similarity = ScoreType.negInf) ∧
      (mp = mn → q.score_by similarity = ScoreType.sneg (ScoreType.square mn)) := by
  refine ⟨(ScoreType.max_by (q.positives.map similarity)).getD ScoreType.negInf,
    (ScoreType.max_by (q.negatives.map similarity)).getD ScoreType.negInf,
    isMaxOrNegInf_max_by _, isMaxOrNegInf_max_by _, rfl, ?_, ?_⟩
  · intro hp hn
    simp [RecoQuery.score_by, hp, hn, merge_similarities, ScoreType.max_by,
      ScoreType.slt, ScoreType.square, ScoreType.sneg]
  · intro he
    simp only [RecoQuery.score_by, merge_similarities]
    rw [he, slt_irrefl]
    simp

/-- C2: for every recommendation query with empty negatives and nonempty
positives, `RecoQuery::score_by` returns a value equal to the maximum
similarity over the positives. -/
theorem score_by_positive_only (T : Type) (q : RecoQuery T)
    (similarity : T → ScoreType) (hneg : q.negatives = [])
    (hpos : q.positives ≠ []) :
    ∃ m : ScoreType, m ∈ q.positives.map similarity ∧
      (∀ x ∈ q.positives.map similarity, ScoreType.sle x m = true) ∧
      q.score_by similarity = m := by
  have hl : q.positives.map similarity ≠ [] := by
    intro h
    exact hpos (List.map_eq_nil_iff.mp h)
  rcases isMaxOrNegInf_max_by (q.positives.map similarity) with ⟨h1, _⟩ | ⟨hm, hbound⟩
  · exact absurd h1 hl
  · refine ⟨_, hm, hbound, ?_⟩
    simp only [RecoQuery.score_by, hneg, List.map_nil]
    exact merge_similarities_no_negatives _ hl

/-- Witness for C2 at the concrete query with a single positive exemplar. -/
theorem score_by_positive_only_witness :
    ∃ m : ScoreType,
      m ∈ (RecoQuery.mk [()] ([] : List Unit)).positives.map (fun _ => ScoreType.posInf) ∧
      (∀ x ∈ (RecoQuery.mk [()] ([] : List Unit)).positives.map
          (fun _ => ScoreType.posInf), ScoreType.sle x m = true) ∧
      (RecoQuery.mk [()] ([] : List Unit)).score_by (fun _ => ScoreType.posInf) = m :=
  score_by_positive_only Unit (RecoQuery.mk [()] []) (fun _ => ScoreType.posInf)
    rfl (by simp)

theorem list_set_get_eq : ∀ (l : List Bool) (k : ℕ), l.get? k = some true →
    l.set k true = l
  | [], k, h => by simp at h
  | x :: xs, 0, h => by
      simp only [List.get?] at h
      simp [List.set, Option.some.inj h]
  | x :: xs, k + 1, h => by
      simp only [List.get?] at h
      simp [List.set, list_set_get_eq xs k h]

theorem list_count_set_true : ∀ (l : List Bool) (k : ℕ), l.get? k = some false →
    (l.set k true).count true = l.count true + 1
  | [], k, h => by simp at h
  | x :: xs, 0, h => by
      simp only [List.get?] at h
      rw [Option.some.inj h]
      simp [List.set, List.count_cons]
  | x :: xs, k + 1, h => by
      simp only [List.get?] at h
      simp only [List.set, List.count_cons]
      rw [list_count_set_true xs k h]
      omega

theorem list_get_set_self : ∀ (l : List Bool) (k : ℕ), k < l.length →
    (l.set k true).get? k = some true
  | [], k, h => by simp at h
  | x :: xs, 0, _ => rfl
  | x :: xs, k + 1, h => by
      simp only [List.set, List.get?]
      exact list_get_set_self xs k (by simpa using h)

/-- C3 counterexample: at the concrete fixture state whose deletion bitmap is
empty, both read accessors hit the BitVec index panic at offset 0 (modelled
as `none`) instead of returning a result: they are not defensive against
out-of-range offsets. -/
theorem deletion_accessors_not_defensive :
    TestRawScorerProducer.is_deleted_vector ⟨[], [], []⟩ 0 = none ∧
    TestRawScorerProducer.delete_vector ⟨[], [], []⟩ 0 = none :=
  ⟨rfl, rfl⟩

/-- C3 amended: `is_deleted_vector` and `delete_vector` return a result for
every offset strictly below the deletion bitmap length; for offsets at or
beyond it the underlying bitmap indexing panics (the accessors are not
defensive there). -/
theorem deletion_accessors_in_range (s : TestRawScorerProducer) (key : ℕ)
    (h : key < s.deleted_vectors.length) :
    (∃ b, s.is_deleted_vector key = some b) ∧
    (∃ r s2, s.delete_vector key = some (r, s2)) := by
  have hg := List.get?_eq_get h
  constructor
  · exact ⟨_, hg⟩
  · have hd : s.delete_vector key =
        some (!(s.deleted_vectors.get ⟨key, h⟩),
          { s with deleted_vectors := s.deleted_vectors.set key true }) := by
      unfold TestRawScorerProducer.delete_vector
      rw [hg]
    exact ⟨_, _, hd⟩

/-- Witness for the amended C3 at a one-bit bitmap and offset 0. -/
theorem deletion_accessors_in_range_witness :
    (∃ b, TestRawScorerProducer.is_deleted_vector ⟨[], [], [false]⟩ 0 = some b) ∧
    (∃ r s2, TestRawScorerProducer.delete_vector ⟨[], [], [false]⟩ 0 = some (r, s2)) :=
  deletion_accessors_in_range ⟨[], [], [false]⟩ 0 (by decide)

/-- C4: `available_vector_count` equals total minus deleted whenever the
deleted count does not exceed the total (stated additively to pin the exact
difference), and saturates to zero when the deleted count exceeds the total;
being a natural number it can never be negative, and the saturating
subtraction never panics. -/
theorem available_vector_count_saturating (s : TestRawScorerProducer) :
    (s.deleted_vector_count ≤ s.total_vector_count →
      s.available_vector_count + s.deleted_vector_count = s.total_vector_count) ∧
    (s.total_vector_count < s.deleted_vector_count →
      s.available_vector_count = 0) := by
  unfold TestRawScorerProducer.available_vector_count
  omega

/-- Witness for C4: one state with deleted ≤ total, one with deleted > total. -/
theorem available_vector_count_saturating_witness :
    (TestRawScorerProducer.available_vector_count ⟨[[], []], [], [true, false]⟩ +
        TestRawScorerProducer.deleted_vector_count ⟨[[], []], [], [true, false]⟩ =
      TestRawScorerProducer.total_vector_count ⟨[[], []], [], [true, false]⟩) ∧
    TestRawScorerProducer.available_vector_count ⟨[], [], [true]⟩ = 0 :=
  ⟨(available_vector_count_saturating ⟨[[], []], [], [true, false]⟩).1 (by decide),
    (available_vector_count_saturating ⟨[], [], [true]⟩).2 (by decide)⟩

/-- C5: for every in-range offset, `delete_vector` returns the negation of
the previous deletion flag: on an already-deleted offset it returns `false`,
leaves the state (hence `deleted_vector_count`) unchanged; on a fresh offset
it returns `true` and increases `deleted_vector_count` by exactly one; and a
second call on the resulting state returns `false` and leaves that state
unchanged (idempotence of the resulting deletion state). -/
theorem delete_vector_transition (s : TestRawScorerProducer) (key : ℕ)
    (b : Bool) (hb : s.deleted_vectors.get? key = some b) :
    ∃ s2, s.delete_vector key = some (!b, s2) ∧
      s2.delete_vector key = some (false, s2) ∧
      (b = true → s2 = s ∧ s2.deleted_vector_count = s.deleted_vector_count) ∧
      (b = false → s2.deleted_vector_count = s.deleted_vector_count + 1) := by
  have hlen : key < s.deleted_vectors.length := by
    by_contra hc
    rw [List.get?_eq_none.mpr (le_of_not_lt hc)] at hb
    exact Option.noConfusion hb
  refine ⟨{ s with deleted_vectors := s.deleted_vectors.set key true }, ?_, ?_, ?_, ?_⟩
  · unfold TestRawScorerProducer.delete_vector
    rw [hb]
  · have hg2 : (s.deleted_vectors.set key true).get? key = some true :=
      list_get_set_self s.deleted_vectors key hlen
    unfold TestRawScorerProducer.delete_vector
    simp only [hg2]
    rw [List.set_set]
    rfl
  · intro ht
    subst ht
    have hset := list_set_get_eq s.deleted_vectors key hb
    rw [hset]
    exact ⟨rfl, rfl⟩
  · intro hf
    subst hf
    show (s.deleted_vectors.set key true).count true = s.deleted_vectors.count true + 1
    exact list_count_set_true s.deleted_vectors key hb

/-- Witness for C5 at a one-bit fresh bitmap and offset 0. -/
theorem delete_vector_transition_witness :
    ∃ s2, TestRawScorerProducer.delete_vector ⟨[], [], [false]⟩ 0 = some (!false, s2) ∧
      s2.delete_vector 0 = some (false, s2) ∧
      (false = true → s2 = ⟨[], [], [false]⟩ ∧
        s2.deleted_vector_count =
          TestRawScorerProducer.deleted_vector_count ⟨[], [], [false]⟩) ∧
      (false = false → s2.deleted_vector_count =
        TestRawScorerProducer.deleted_vector_count ⟨[], [], [false]⟩ + 1) :=
  delete_vector_transition ⟨[], [], [false]⟩ 0 false rfl

/-- Specification-side view: the vectors contained in a query (the single
nearest target, or all positives then negatives of a recommendation). -/
def queryVectorsOf : QueryVector → List VectorOrSparse
  | .Nearest v => [v]
  | .Recommend rq => rq.iter_all

theorem try_for_each_check (c : VectorDataConfig) :
    ∀ l : List VectorOrSparse,
      try_for_each l (fun v => check_vector_against_config v.ref c) =
        match l.find? (fun v => decide (v.ref.len ≠ c.size)) with
        | some v => Except.error (OperationError.WrongVector c.size v.ref.len)
        | none => Except.ok ()
  | [] => rfl
  | x :: rest => by
      by_cases hx : x.ref.len = c.size
      · rw [List.find?_cons_of_neg _ (by simp [hx])]
        have h1 : check_vector_against_config x.ref c = Except.ok () := by
          simp [check_vector_against_config, hx]
        calc try_for_each (x :: rest) (fun v => check_vector_against_config v.ref c)
            = try_for_each rest (fun v => check_vector_against_config v.ref c) := by
              simp only [try_for_each, h1]
              rfl
          _ = _ := try_for_each_check c rest
      · rw [List.find?_cons_of_pos _ (by simpa using hx)]
        have h1 : check_vector_against_config x.ref c =
            Except.error (OperationError.WrongVector c.size x.ref.len) := by
          simp [check_vector_against_config, hx]
        simp only [try_for_each, h1]
        rfl

/-- C6: `check_vector` fails with `VectorNameNotExists` carrying the received
name when the name is not declared in the config; with the name resolved to
config `c`, a `Nearest` query whose vector length differs from `c.size`
fails with `WrongVector` carrying expected and received dimensions, a
`Recommend` query is decided by the first positive-then-negative element
whose length mismatches (short-circuit), and validation succeeds when every
contained vector matches the configured dimensionality. -/
theorem check_vector_spec (vector_name : String) (query_vector : QueryVector)
    (segment_config : SegmentConfig) :
    (segment_config.vector_data.lookup vector_name = none →
      check_vector vector_name query_vector segment_config =
        .error (.VectorNameNotExists vector_name)) ∧
    (∀ c, segment_config.vector_data.lookup vector_name = some c →
      (∀ v, query_vector = .Nearest v → v.ref.len ≠ c.size →
        check_vector vector_name query_vector segment_config =
          .error (.WrongVector c.size v.ref.len)) ∧
      (∀ rq, query_vector = .Recommend rq →
        check_vector vector_name query_vector segment_config =
          (match rq.iter_all.find? (fun v => decide (v.ref.len ≠ c.size)) with
           | some v => Except.error (OperationError.WrongVector c.size v.ref.len)
           | none => Except.ok ())) ∧
      ((∀ v ∈ queryVectorsOf query_vector, v.ref.len = c.size) →
        check_vector vector_name query_vector segment_config = .ok ())) := by
  constructor
  · intro hn
    have hg : get_vector_config_or_error vector_name segment_config =
        Except.error (.VectorNameNotExists vector_name) := by
      simp [get_vector_config_or_error, hn]
    simp only [check_vector, hg]
    rfl
  · intro c hc
    have hg : get_vector_config_or_error vector_name segment_config =
        Except.ok c := by
      simp [get_vector_config_or_error, hc]
    have hcv : check_vector vector_name query_vector segment_config =
        check_query_vector_inner query_vector c := by
      simp only [check_vector, hg]
      rfl
    refine ⟨?_, ?_, ?_⟩
    · intro v hv hlen
      subst hv
      rw [hcv]
      simp [check_query_vector_inner, check_vector_against_config, hlen]
    · intro rq hr
      subst hr
      rw [hcv]
      exact try_for_each_check c rq.iter_all
    · intro hall
      rw [hcv]
      cases query_vector with
      | Nearest v =>
          have hv := hall v (by simp [queryVectorsOf])
          simp [check_query_vector_inner, check_vector_against_config, hv]
      | Recommend rq =>
          show try_for_each rq.iter_all
            (fun v => check_vector_against_config v.ref c) = .ok ()
          rw [try_for_each_check c rq.iter_all]
          have hnone : rq.iter_all.find?
              (fun v => decide (v.ref.len ≠ c.size)) = none := by
            rw [List.find?_eq_none]
            intro x hx
            simp [hall x (by simpa [queryVectorsOf] using hx)]
          rw [hnone]

/-- Witness for C6: missing name, dimension mismatch, and success, each at a
concrete configuration and query. -/
theorem check_vector_spec_witness :
    check_vector "q" (.Nearest (.Vector [])) ⟨[]⟩ =
      .error (.VectorNameNotExists "q") ∧
    check_vector "q" (.Nearest (.Vector [])) ⟨[("q", ⟨1⟩)]⟩ =
      .error (.WrongVector 1 0) ∧
    check_vector "q" (.Nearest (.Vector [])) ⟨[("q", ⟨0⟩)]⟩ = .ok () :=
  ⟨(check_vector_spec "q" (.Nearest (.Vector [])) ⟨[]⟩).1 rfl,
   ((check_vector_spec "q" (.Nearest (.Vector [])) ⟨[("q", ⟨1⟩)]⟩).2 ⟨1⟩ rfl).1
     (.Vector []) rfl (by decide),
   ((check_vector_spec "q" (.Nearest (.Vector [])) ⟨[("q", ⟨0⟩)]⟩).2 ⟨0⟩ rfl).2.2
     (by decide)⟩

theorem collect_dense_cases : ∀ l : List VectorOrSparse,
    (collect_dense l = .error .WrongSparse ∧
      ∃ x ∈ l, ∃ s, x = VectorOrSparse.Sparse s) ∨
    (∃ d, collect_dense l = .ok d ∧ d.map VectorOrSparse.Vector = l)
  | [] => Or.inr ⟨[], rfl, rfl⟩
  | VectorOrSparse.Sparse s :: rest =>
      Or.inl ⟨rfl, VectorOrSparse.Sparse s, List.mem_cons_self _ _, s, rfl⟩
  | VectorOrSparse.Vector v :: rest => by
      rcases collect_dense_cases rest with ⟨he, x, hx, s, hs⟩ | ⟨d, hd, hmap⟩
      · left
        refine ⟨?_, x, List.mem_cons_of_mem _ hx, s, hs⟩
        simp only [collect_dense, he]
        rfl
      · right
        refine ⟨v :: d, ?_, by simp [hmap]⟩
        simp only [collect_dense, hd]
        rfl

/-- C7: narrowing a union to the kind matching its tag returns the contained
vector unchanged; narrowing to the mismatched kind fails with the wrong-kind
error (`WrongSparse`), for both the owned and the borrowed union; and
converting a recommendation query over unions to one over dense vectors
fails with the wrong-kind error exactly when some positive or negative holds
the sparse tag, and otherwise preserves every element and its position in
both lists. -/
theorem union_narrowing_spec :
    (∀ v, VectorOrSparse.try_into_vector (.Vector v) = .ok v) ∧
    (∀ s, VectorOrSparse.try_into_sparse (.Sparse s) = .ok s) ∧
    (∀ s, VectorOrSparse.try_into_vector (.Sparse s) = .error .WrongSparse) ∧
    (∀ v, VectorOrSparse.try_into_sparse (.Vector v) = .error .WrongSparse) ∧
    (∀ v, VectorOrSparseRef.try_into_slice (.Vector v) = .ok v) ∧
    (∀ s, VectorOrSparseRef.try_into_slice (.Sparse s) = .error .WrongSparse) ∧
    (∀ v, VectorOrSparseRef.try_into_sparse (.Vector v) = .error .WrongSparse) ∧
    (∀ s, VectorOrSparseRef.try_into_sparse (.Sparse s) = .ok s) ∧
    (∀ q : RecoQuery VectorOrSparse,
      ((∃ e, q.try_from_union = .error e) ↔
        ∃ x ∈ q.iter_all, ∃ s, x = VectorOrSparse.Sparse s) ∧
      (∀ e, q.try_from_union = .error e → e = .WrongSparse) ∧
      (∀ q2, q.try_from_union = .ok q2 →
        q2.positives.map VectorOrSparse.Vector = q.positives ∧
        q2.negatives.map VectorOrSparse.Vector = q.negatives)) := by
  refine ⟨fun v => rfl, fun s => rfl, fun s => rfl, fun v => rfl, fun v => rfl,
    fun s => rfl, fun v => rfl, fun s => rfl, fun q => ?_⟩
  rcases collect_dense_cases q.positives with ⟨hep, x, hx, s, hs⟩ | ⟨dp, hdp, hmp⟩
  · have hq : q.try_from_union = .error .WrongSparse := by
      simp only [RecoQuery.try_from_union, hep]
      rfl
    refine ⟨⟨fun _ => ⟨x, by simp [RecoQuery.iter_all, hx], s, hs⟩,
      fun _ => ⟨.WrongSparse, hq⟩⟩, ?_, ?_⟩
    · intro e he
      rw [hq] at he
      exact (Except.error.inj he).symm
    · intro q2 h2
      rw [hq] at h2
      exact Except.noConfusion h2
  · rcases collect_dense_cases q.negatives with ⟨hen, x, hx, s, hs⟩ | ⟨dn, hdn, hmn⟩
    · have hq : q.try_from_union = .error .WrongSparse := by
        simp only [RecoQuery.try_from_union, hdp, hen]
        rfl
      refine ⟨⟨fun _ => ⟨x, by simp [RecoQuery.iter_all, hx], s, hs⟩,
        fun _ => ⟨.WrongSparse, hq⟩⟩, ?_, ?_⟩
      · intro e he
        rw [hq] at he
        exact (Except.error.inj he).symm
      · intro q2 h2
        rw [hq] at h2
        exact Except.noConfusion h2
    · have hq : q.try_from_union = .ok ⟨dp, dn⟩ := by
        simp only [RecoQuery.try_from_union, hdp, hdn]
        rfl
      refine ⟨⟨?_, ?_⟩, ?_, ?_⟩
      · rintro ⟨e, he⟩
        rw [hq] at he
        exact Except.noConfusion he
      · rintro ⟨x, hx, s, hs⟩
        subst hs
        rcases List.mem_append.mp hx with hxp | hxn
        · rw [← hmp] at hxp
          rcases List.mem_map.mp hxp with ⟨y, _, hy⟩
          exact VectorOrSparse.noConfusion hy
        · rw [← hmn] at hxn
          rcases List.mem_map.mp hxn with ⟨y, _, hy⟩
          exact VectorOrSparse.noConfusion hy
      · intro e he
        rw [hq] at he
        exact Except.noConfusion he
      · intro q2 h2
        rw [hq] at h2
        have := Except.ok.inj h2
        subst this
        exact ⟨hmp, hmn⟩

/-- Witness for C7: the conversion of a concrete recommendation query holding
one sparse positive fails. -/
theorem union_narrowing_spec_witness :
    ∃ e, (RecoQuery.mk [VectorOrSparse.Sparse ⟨[], []⟩] []).try_from_union =
      .error e :=
  (union_narrowing_spec.2.2.2.2.2.2.2.2
      (RecoQuery.mk [VectorOrSparse.Sparse ⟨[], []⟩] [])).1.mpr
    ⟨VectorOrSparse.Sparse ⟨[], []⟩, by simp [RecoQuery.iter_all], ⟨[], []⟩, rfl⟩

/-- C8: converting a dense vector into the union (directly or via the
borrowed view and `to_owned`) and narrowing back yields the original
sequence; the same round trip for a sparse vector preserves indices and
weights exactly, including order. -/
theorem union_round_trip :
    (∀ v : VectorType, (VectorOrSparse.from_vector v).try_into_vector = .ok v) ∧
    (∀ v : VectorType,
      (VectorOrSparseRef.Vector v).to_owned.try_into_vector = .ok v) ∧
    (∀ s : SparseVector, ∃ s2,
      (VectorOrSparse.from_sparse s).try_into_sparse = .ok s2 ∧
      s2.indices = s.indices ∧ s2.weights = s.weights) ∧
    (∀ s : SparseVector, ∃ s2,
      (VectorOrSparseRef.Sparse s).to_owned.try_into_sparse = .ok s2 ∧
      s2.indices = s.indices ∧ s2.weights = s.weights) :=
  ⟨fun _ => rfl, fun _ => rfl, fun s => ⟨s, rfl, rfl, rfl⟩,
    fun s => ⟨s, rfl, rfl, rfl⟩⟩

/-- C9: `check_stopped` returns a `Cancelled` error carrying a description
exactly when the stop flag is set and succeeds when it is not; consequently
the modelled bulk copy invoked with a pre-set stop flag fails with the
cancellation error on any nonempty id range. -/
theorem check_stopped_cancellation :
    (∀ b : Bool, ((∃ d, check_stopped b = .error (.Cancelled d)) ↔ b = true)) ∧
    check_stopped false = .ok () ∧
    (∀ ids : List ℕ, ids ≠ [] →
      update_from_modelled true ids =
        .error (.Cancelled "Operation is stopped externally")) := by
  refine ⟨?_, rfl, ?_⟩
  · intro b
    cases b
    · simp [check_stopped]
    · exact ⟨fun _ => rfl, fun _ => ⟨"Operation is stopped externally", rfl⟩⟩
  · intro ids hne
    cases ids with
    | nil => exact absurd rfl hne
    | cons x rest => rfl

/-- Witness for C9: the bulk copy of the single id 0 under a pre-set flag. -/
theorem check_stopped_cancellation_witness :
    update_from_modelled true [0] =
      .error (.Cancelled "Operation is stopped externally") :=
  check_stopped_cancellation.2.2 [0] (by decide)

/-- C10: `VectorStruct::is_empty` is true exactly when every contained
vector has zero elements (dense) or zero indices (sparse); in particular the
`Multi` and `MultiSparse` variants holding an empty map are reported empty. -/
theorem vector_struct_is_empty_iff (vs : VectorStruct) :
    (vs.is_empty = true ↔ ∀ n ∈ vs.containedLens, n = 0) ∧
    VectorStruct.is_empty (.Multi []) = true ∧
    VectorStruct.is_empty (.MultiSparse []) = true := by
  refine ⟨?_, rfl, rfl⟩
  cases vs with
  | Single v =>
      simp [VectorStruct.is_empty, VectorStruct.containedLens,
        List.isEmpty_iff, List.length_eq_zero]
  | Multi m =>
      simp only [VectorStruct.is_empty, VectorStruct.containedLens,
        List.all_eq_true, List.isEmpty_iff, List.mem_map,
        forall_exists_index, and_imp, Prod.forall]
      constructor
      · rintro h n a b hmem rfl
        simp [h a b hmem]
      · intro h a b hmem
        exact List.length_eq_zero.mp (h b.length a b hmem rfl)
  | Sparse s =>
      simp [VectorStruct.is_empty, VectorStruct.containedLens,
        List.isEmpty_iff, List.length_eq_zero]
  | MultiSparse m =>
      simp only [VectorStruct.is_empty, VectorStruct.containedLens,
        List.all_eq_true, List.isEmpty_iff, List.mem_map,
        forall_exists_index, and_imp, Prod.forall]
      constructor
      · rintro h n a b hmem rfl
        simp [h a b hmem]
      · intro h a b hmem
        exact List.length_eq_zero.mp (h b.indices.length a b hmem rfl)

/-- Witness for C10: a sparse struct with no indices is empty. -/
theorem vector_struct_is_empty_iff_witness :
    VectorStruct.is_empty (.Sparse ⟨[], []⟩) = true :=
  (vector_struct_is_empty_iff (.Sparse ⟨[], []⟩)).1.mpr (by decide)
